import Mathlib

set_option maxRecDepth 8000

/-!
Verification development for the JSDoc builder core of the aidoccli
repository (src/jsdoc/builder.js, with the tag tables from
src/jsdocGenerator.js).

JavaScript strings are modelled as lists of characters; the string
operations used by the source (trim, startsWith, includes, indexOf,
substring, split, join, and the fenced-code regex replace) are given
executable character-list implementations with the same semantics.
JavaScript optional fields that are only ever tested for truthiness are
flattened to the empty string or empty list, which has the same
observable behaviour in every use site of the source.
-/

/-- JavaScript strings, modelled as lists of characters. -/
abbrev JSStr := List Char

/-- The at sign starting a tag line. -/
def atStr : JSStr := ("@").data

/-- The legacy tag name aliased to returns. -/
def returnTag : JSStr := ("return").data

/-- The returns tag name. -/
def returnsTag : JSStr := ("returns").data

/-- The catch-all bucket key for unmanaged tags. -/
def otherTag : JSStr := ("other").data

/-- The class tag name. -/
def classTag : JSStr := ("class").data

/-- The param tag name. -/
def paramTag : JSStr := ("param").data

/-- The throws tag name. -/
def throwsTag : JSStr := ("throws").data

/-- The example tag name. -/
def exampleTag : JSStr := ("example").data

/-- The description tag name. -/
def descriptionTag : JSStr := ("description").data

/-- The augments tag name. -/
def augmentsTag : JSStr := ("augments").data

/-- The extends tag name. -/
def extendsTag : JSStr := ("extends").data

/-- The constructor tag name. -/
def constructorTag : JSStr := ("constructor").data

/-- The void sentinel for return types. -/
def voidStr : JSStr := ("void").data

/-- The literal class marker line. -/
def atClassLine : JSStr := ("@class").data

/-- The augments line head with trailing space. -/
def atAugmentsSp : JSStr := ("@augments ").data

/-- The constructor line head with trailing space. -/
def atConstructorSp : JSStr := ("@constructor ").data

/-- The example line head with trailing space. -/
def atExampleSp : JSStr := ("@example ").data

/-- The synthesized throws line head. -/
def atThrowsErr : JSStr := ("@throws \x7bError\x7d ").data

/-- The param line head up to the opening brace. -/
def atParamBrace : JSStr := ("@param \x7b").data

/-- The returns line head up to the opening brace. -/
def atReturnsBrace : JSStr := ("@returns \x7b").data

/-- An opening brace. -/
def braceL : JSStr := ("\x7b").data

/-- A closing brace followed by a space. -/
def braceRSp : JSStr := ("\x7d ").data

/-- The canonical dash separator. -/
def dashSp : JSStr := (" - ").data

/-- A single dash. -/
def dashStr : JSStr := ("-").data

/-- A single space. -/
def spaceStr : JSStr := (" ").data

/-- A code fence marker. -/
def fence3 : JSStr := ("```").data

/-- A javascript-labelled opening fence with newline. -/
def fenceJsNl : JSStr := ("```javascript\n").data

/-- A typescript-labelled opening fence with newline. -/
def fenceTsNl : JSStr := ("```typescript\n").data

/-- A bare opening fence with newline. -/
def fence3Nl : JSStr := ("```\n").data

/-- A newline followed by a closing fence. -/
def nlFence3 : JSStr := ("\n```").data

/-- The Babel block-comment node type. -/
def commentBlockTy : JSStr := ("CommentBlock").data

/-- The JSDoc doc-marker star. -/
def starStr : JSStr := ("*").data

/-- The trailing close-marker remnant with star. -/
def endStar : JSStr := ("*/").data

/-- The trailing close-marker remnant without star. -/
def endSlash : JSStr := ("/").data

/-- Left part of JS String.prototype.trim: drop leading whitespace. -/
def trimLeftJS (s : JSStr) : JSStr := s.dropWhile Char.isWhitespace

/-- Right part of JS String.prototype.trim: drop trailing whitespace. -/
def trimRightJS (s : JSStr) : JSStr := (s.reverse.dropWhile Char.isWhitespace).reverse

/-- JS String.prototype.trim. -/
def jsTrim (s : JSStr) : JSStr := trimRightJS (trimLeftJS s)

/-- JS String.prototype.startsWith: `strStarts p s` is true when `s` begins with `p`. -/
def strStarts : JSStr → JSStr → Bool
  | [], _ => true
  | _ :: _, [] => false
  | p :: ps, c :: cs => p == c && strStarts ps cs

/-- JS String.prototype.includes. -/
def jsIncl (pat : JSStr) : JSStr → Bool
  | [] => strStarts pat []
  | c :: cs => strStarts pat (c :: cs) || jsIncl pat cs

/-- JS String.prototype.indexOf, returned as an optional index. -/
def idxOf? (pat : JSStr) : JSStr → Option Nat
  | [] => if strStarts pat [] then some 0 else none
  | c :: cs => if strStarts pat (c :: cs) then some 0 else (idxOf? pat cs).map (· + 1)

/-- The source expression `content.substring(content.indexOf(pat) + pat.length)`,
with the JS clamping of `-1 + pat.length` to a valid start index. -/
def subAfter (content pat : JSStr) : JSStr :=
  match idxOf? pat content with
  | some i => content.drop (i + pat.length)
  | none => content.drop (pat.length - 1)

/-- JS String.prototype.split with a one-character separator. -/
def splitCh (sep : Char) : JSStr → List JSStr
  | [] => [[]]
  | c :: cs =>
    if c = sep then [] :: splitCh sep cs
    else
      match splitCh sep cs with
      | [] => [[c]]
      | r :: rs => (c :: r) :: rs

/-- JS Array.prototype.join with a one-character separator. -/
def joinCh (sep : Char) (xs : List JSStr) : JSStr := List.intercalate [sep] xs

/-- One pass of the global regex replace
`/(three backticks)(javascript|typescript)?\n|\n(three backticks)/g` seen in the
examples step, scanning left to right and removing each match (alternatives in
the regex's preference order). The fuel argument only serves structural
recursion: every step consumes at least one character and one unit of fuel, so
any fuel of at least the string's length gives the scan's fixed behaviour. -/
def replFuel : Nat → JSStr → JSStr
  | 0, l => l
  | fuel + 1, l =>
    if strStarts fenceJsNl l = true then replFuel fuel (l.drop 14)
    else if strStarts fenceTsNl l = true then replFuel fuel (l.drop 14)
    else if strStarts fence3Nl l = true then replFuel fuel (l.drop 4)
    else if strStarts nlFence3 l = true then replFuel fuel (l.drop 4)
    else
      match l with
      | [] => []
      | c :: cs => c :: replFuel fuel cs

/-- The whole fence-stripping replace, with enough fuel for the input. -/
def replaceFences (l : JSStr) : JSStr := replFuel l.length l

/-- One parsed tag line of an existing JSDoc block: the trimmed original line and
the trimmed content after the tag token. -/
structure TagEntry where
  originalLine : JSStr
  content : JSStr
  deriving DecidableEq

/-- The managed tag set from src/jsdocGenerator.js lines 22-29. -/
def MANAGED_JSDOC_TAGS : List JSStr :=
  [paramTag, returnsTag, throwsTag,
   exampleTag, classTag, descriptionTag]

/-- The insertion-ordered JS Map from tag name to its entries. -/
abbrev TagGroups := List (JSStr × List TagEntry)

/-- Map lookup; a missing key behaves as the empty entry list (the JS code only
ever iterates over, indexes, or searches the looked-up array, and every stored
array is nonempty, so `undefined` and `[]` are not distinguished by any use). -/
def getGroup : TagGroups → JSStr → List TagEntry
  | [], _ => []
  | (k, es) :: rest, key => if k = key then es else getGroup rest key

/-- Insert an entry under a key, appending to the key's list if present. -/
def addEntry : TagGroups → JSStr → TagEntry → TagGroups
  | [], key, e => [(key, [e])]
  | (k, es) :: rest, key, e =>
    if k = key then (k, es ++ [e]) :: rest else (k, es) :: addEntry rest key e

/-- State built by the parse loop of updateJSDocBlock. -/
structure ParsedJSDoc where
  groups : TagGroups
  mainDescription : JSStr
  deriving DecidableEq

/-- Tag name of a trimmed tag line: text of the first space-separated token after
the at sign, with the legacy alias from return to returns applied. -/
def tagNameOf (t : JSStr) : JSStr :=
  let raw := ((splitCh ' ' t).headD []).drop 1
  if raw = returnTag then returnsTag else raw

/-- Content of a trimmed tag line: the remaining tokens joined by spaces, trimmed. -/
def tagContentOf (t : JSStr) : JSStr :=
  jsTrim (joinCh ' ' ((splitCh ' ' t).drop 1))

/-- The map key a tag line is stored under: its own name when managed, the
catch-all other bucket otherwise. -/
def lineKey (t : JSStr) : JSStr :=
  if tagNameOf t ∈ MANAGED_JSDOC_TAGS then tagNameOf t else otherTag

/-- One iteration of the parse loop in updateJSDocBlock (builder.js lines 297-341).
The source declares a foundMainDescription flag but never sets it, so every
bare non-blank line accumulates into the main description - modelled as-is. -/
def parseStep (st : ParsedJSDoc) (line : JSStr) : ParsedJSDoc :=
  let t := jsTrim line
  if strStarts atStr t then
    { st with groups := addEntry st.groups (lineKey t) ⟨t, tagContentOf t⟩ }
  else if t ≠ [] then
    { st with mainDescription :=
        if st.mainDescription = [] then t else st.mainDescription ++ '\n' :: t }
  else st

/-- The whole parse loop of updateJSDocBlock. -/
def parseLines (lines : List JSStr) : ParsedJSDoc :=
  lines.foldl parseStep ⟨[], []⟩

/-- One inferred parameter. -/
structure JSParam where
  name : JSStr
  type : JSStr
  description : JSStr
  deriving DecidableEq

/-- The inferred metadata record consumed by updateJSDocBlock and buildJSDocLines.
Optional string fields are flattened to the empty string (JS falsy), the returns
object to its two string components, and optional arrays to the empty list. -/
structure InferredJSDoc where
  description : JSStr := []
  name : JSStr := []
  functionName : JSStr := []
  extendsClass : JSStr := []
  constructorDescription : JSStr := []
  params : List JSParam := []
  constructorParams : List JSParam := []
  returnsType : JSStr := []
  returnsDescription : JSStr := []
  throws : List JSStr := []
  examples : List JSStr := []
  deriving DecidableEq

/-- The generic description placeholder string of the source. -/
def descPlaceholder : JSStr := ("Description placeholder.").data

/-- The generic constructor placeholder string of the source. -/
def ctorPlaceholder : JSStr := ("Initializes a new instance of the class.").data

/-- The generic returns placeholder string of the source. -/
def returnsPlaceholder : JSStr := ("The result of the operation.").data

/-- The per-parameter placeholder pattern of the source. -/
def paramPlaceholder (p : JSParam) : JSStr :=
  ("The ").data ++ p.type ++ (" value of ").data ++ p.name ++ (".").data

/-- The canonical parameter line built purely from metadata. -/
def metaParamLine (p : JSParam) : JSStr :=
  atParamBrace ++ p.type ++ braceRSp ++ p.name ++ dashSp ++ p.description

/-- The returns line pairing a type with a description. -/
def returnsTagLine (t d : JSStr) : JSStr :=
  atReturnsBrace ++ t ++ braceRSp ++ d

/-- Step 1 of updateJSDocBlock: the main description (builder.js lines 345-360). -/
def descriptionSection (st : ParsedJSDoc) (m : InferredJSDoc) : List JSStr :=
  let existingIsPh : Bool :=
    decide (st.mainDescription = []) || jsIncl descPlaceholder st.mainDescription
  if m.description ≠ [] ∧ m.description ≠ descPlaceholder then
    if existingIsPh then [m.description] else [st.mainDescription]
  else if st.mainDescription ≠ [] then [st.mainDescription]
  else []

/-- The blank separator after the description (builder.js lines 362-372); the
source tests updatedLines.length which at that point counts the description. -/
def blankSection (st : ParsedJSDoc) (m : InferredJSDoc) : List JSStr :=
  if descriptionSection st m ≠ [] ∧
      (m.params ≠ [] ∨ m.returnsType ≠ [] ∨ m.throws ≠ [] ∨ m.examples ≠ [] ∨
        st.groups ≠ []) then
    [([] : JSStr)]
  else []

/-- Step 2 of updateJSDocBlock: class tags (builder.js lines 374-396). -/
def classSection (st : ParsedJSDoc) (m : InferredJSDoc) : List JSStr :=
  if m.name ≠ [] then
    (match getGroup st.groups (classTag) with
      | [] => [atClassLine]
      | e :: _ => [e.originalLine]) ++
    (if m.extendsClass ≠ [] then
      let exA := getGroup st.groups (augmentsTag)
      let exE := getGroup st.groups (extendsTag)
      let ee := if exA ≠ [] then exA else exE
      if ee = [] ∨ (ee.any fun e => decide (e.content ≠ m.extendsClass)) = true then
        [atAugmentsSp ++ m.extendsClass]
      else [(ee.headD ⟨[], []⟩).originalLine]
    else [])
  else []

/-- Constructor parameter line (builder.js lines 420-440): reuse an existing
param entry whose content starts with the brace-type-name pattern unless it is
exactly the per-pair placeholder; note the space (not dash) join and the absence
of dash stripping on this path. -/
def ctorParamLine (st : ParsedJSDoc) (p : JSParam) : JSStr :=
  match (getGroup st.groups (paramTag)).find?
      (fun q => strStarts (braceL ++ p.type ++ braceRSp ++ p.name) q.content) with
  | some q =>
    if q.content ≠ paramPlaceholder p then
      atParamBrace ++ p.type ++ braceRSp ++ p.name ++ spaceStr ++
        jsTrim (subAfter q.content p.name)
    else metaParamLine p
  | none => metaParamLine p

/-- Step 3 of updateJSDocBlock: constructor tags (builder.js lines 398-442). -/
def ctorSection (st : ParsedJSDoc) (m : InferredJSDoc) : List JSStr :=
  if m.constructorDescription ≠ [] then
    (match (getGroup st.groups (constructorTag)).find?
        (fun e => decide (e.content ≠ ctorPlaceholder)) with
      | some e => [atConstructorSp ++ e.content]
      | none =>
        if m.constructorDescription ≠ ctorPlaceholder then
          [atConstructorSp ++ m.constructorDescription]
        else
          match getGroup st.groups (constructorTag) with
          | e :: _ => [e.originalLine]
          | [] => []) ++
    m.constructorParams.map (ctorParamLine st)
  else []

/-- Function parameter line (builder.js lines 445-473): existing non-placeholder
content wins, with its trailing part after the name extracted, a leading dash
stripped, and a canonical dash join; otherwise the metadata description. -/
def paramLine (st : ParsedJSDoc) (p : JSParam) : JSStr :=
  match (getGroup st.groups (paramTag)).find?
      (fun q => jsIncl (braceL ++ p.type ++ braceRSp ++ p.name) q.content) with
  | some q =>
    if jsIncl (paramPlaceholder p) q.content then metaParamLine p
    else
      let d0 := jsTrim (subAfter q.content p.name)
      let d1 := if strStarts (dashStr) d0 then jsTrim (d0.drop 1) else d0
      atParamBrace ++ p.type ++ braceRSp ++ p.name ++ dashSp ++ d1
  | none => metaParamLine p

/-- Step 4 of updateJSDocBlock: parameters (builder.js lines 444-473). -/
def paramsSection (st : ParsedJSDoc) (m : InferredJSDoc) : List JSStr :=
  m.params.map (paramLine st)

/-- Step 5 of updateJSDocBlock: returns (builder.js lines 475-499). -/
def returnsSection (st : ParsedJSDoc) (m : InferredJSDoc) : List JSStr :=
  if m.returnsType ≠ [] ∧ m.returnsType ≠ voidStr then
    match (getGroup st.groups (returnsTag)).find?
        (fun e => decide (e.content ≠ returnsPlaceholder)) with
    | some e =>
      if e.content ≠ [] ∧ e.content ≠ returnsPlaceholder then
        [returnsTagLine m.returnsType e.content]
      else [returnsTagLine m.returnsType m.returnsDescription]
    | none => [returnsTagLine m.returnsType m.returnsDescription]
  else []

/-- Step 6 of updateJSDocBlock: throws (builder.js lines 501-515). -/
def throwsSection (st : ParsedJSDoc) (m : InferredJSDoc) : List JSStr :=
  m.throws.map fun d =>
    match (getGroup st.groups (throwsTag)).find? (fun e => jsIncl d e.content) with
    | some e => e.originalLine
    | none => atThrowsErr ++ d

/-- Fence-stripped, trimmed example content used for deduplication. -/
def cleanedExample (x : JSStr) : JSStr := jsTrim (replaceFences x)

/-- Step 7 of updateJSDocBlock: examples (builder.js lines 517-535). -/
def examplesSection (st : ParsedJSDoc) (m : InferredJSDoc) : List JSStr :=
  m.examples.filterMap fun ex =>
    let already : Bool := (getGroup st.groups (exampleTag)).any
      fun e => cleanedExample e.content == cleanedExample ex
    if already = false ∧ jsIncl (fence3) ex = true then
      some (atExampleSp ++ ex)
    else none

/-- Step 8 of updateJSDocBlock: unmanaged passthrough (builder.js lines 537-540). -/
def otherSection (st : ParsedJSDoc) : List JSStr :=
  (getGroup st.groups (otherTag)).map (·.originalLine)

/-- The reconciliation engine updateJSDocBlock (builder.js lines 291-543): parse
the existing lines, then emit the sections in the source's fixed order. -/
def updateJSDocBlock (existingJSDocLines : List JSStr) (m : InferredJSDoc) : List JSStr :=
  let st := parseLines existingJSDocLines
  descriptionSection st m ++ blankSection st m ++ classSection st m ++ ctorSection st m ++
    paramsSection st m ++ returnsSection st m ++ throwsSection st m ++
    examplesSection st m ++ otherSection st

/-- The fresh builder buildJSDocLines (builder.js lines 560-606). -/
def buildJSDocLines (m : InferredJSDoc) : List JSStr :=
  if m.name ≠ [] then
    [m.description, atClassLine] ++
    (if m.extendsClass ≠ [] then [atAugmentsSp ++ m.extendsClass] else []) ++
    (if m.examples ≠ [] then
      ([] : JSStr) :: m.examples.map (fun ex => atExampleSp ++ ex)
    else []) ++
    (if m.constructorDescription ≠ [] then
      (atConstructorSp ++ m.constructorDescription) ::
        m.constructorParams.map metaParamLine
    else [])
  else
    [m.description] ++
    (if m.params ≠ [] then ([] : JSStr) :: m.params.map metaParamLine else []) ++
    (if m.returnsType ≠ [] ∧ m.returnsType ≠ voidStr then
      [returnsTagLine m.returnsType m.returnsDescription]
    else []) ++
    (if m.throws ≠ [] then m.throws.map (fun d => atThrowsErr ++ d)
    else []) ++
    (if m.examples ≠ [] then m.examples.map (fun ex => atExampleSp ++ ex) else [])

/-- A Babel AST comment node, restricted to the two fields the extractor reads. -/
structure BabelComment where
  type : JSStr
  value : JSStr
  deriving DecidableEq

/-- The candidate filter of getJSDocBlocks: a block comment whose text starts
with the doc marker. -/
def isDocBlockComment (c : BabelComment) : Bool :=
  c.type == commentBlockTy && strStarts (starStr) c.value

/-- Per-line normalization of getJSDocBlocks: trim, strip one leading star, trim. -/
def normalizeJSDocLine (l : JSStr) : JSStr :=
  let t := jsTrim l
  if strStarts (starStr) t then jsTrim (t.drop 1) else t

/-- The comment extractor getJSDocBlocks (builder.js lines 247-272). -/
def getJSDocBlocks (comments : List BabelComment) : Option (List JSStr) :=
  if comments = [] then none
  else
    match comments.find? isDocBlockComment with
    | none => none
    | some c =>
      let lines := (splitCh '\n' c.value).map normalizeJSDocLine
      let lines :=
        match lines with
        | [] :: rest => rest
        | l => l
      let lines :=
        match lines.getLast? with
        | some lst => if lst = endStar ∨ lst = endSlash then lines.dropLast else lines
        | none => lines
      some lines

/-- The entry that one existing line contributes to the group keyed `k`, if any:
a trimmed line starting with the at sign lands in the group selected by
`lineKey`, carrying the trimmed line as its original line. -/
def entryFor (k : JSStr) (l : JSStr) : Option TagEntry :=
  let t := jsTrim l
  if strStarts atStr t = true ∧ lineKey t = k then some ⟨t, tagContentOf t⟩ else none

/-- The managed part of updateJSDocBlock's output: every step before the
unmanaged passthrough, in the source's order. -/
def managedSections (E : List JSStr) (m : InferredJSDoc) : List JSStr :=
  descriptionSection (parseLines E) m ++ blankSection (parseLines E) m ++
    classSection (parseLines E) m ++ ctorSection (parseLines E) m ++
    paramsSection (parseLines E) m ++ returnsSection (parseLines E) m ++
    throwsSection (parseLines E) m ++ examplesSection (parseLines E) m

/-- Everything updateJSDocBlock emits after the blank separator slot. -/
def tailSections (E : List JSStr) (m : InferredJSDoc) : List JSStr :=
  classSection (parseLines E) m ++ ctorSection (parseLines E) m ++
    paramsSection (parseLines E) m ++ returnsSection (parseLines E) m ++
    throwsSection (parseLines E) m ++ examplesSection (parseLines E) m ++
    otherSection (parseLines E)

example : jsTrim ("  a b  ").data = ("a b").data := by decide

example :
    buildJSDocLines
      { name := ("User").data, description := ("Represents a user.").data,
        constructorDescription := ("Creates a user.").data,
        constructorParams := [⟨("id").data, ("string").data, ("The user ID.").data⟩] } =
    [("Represents a user.").data, atClassLine, ("@constructor Creates a user.").data,
     ("@param \x7bstring\x7d id - The user ID.").data] := by decide

example :
    updateJSDocBlock [("@see x").data, ("Later text.").data] {} =
    [("Later text.").data, [], ("@see x").data] := by decide

example :
    updateJSDocBlock [("@returns \x7bx\x7d y").data] { description := ("D").data } =
    [("D").data, []] := by decide

example :
    updateJSDocBlock [("D").data, []] { description := ("D").data } = [("D").data] := by
  decide

example : getJSDocBlocks [⟨commentBlockTy, starStr⟩] = some [] := by decide

theorem dropWhile_length_le (p : Char → Bool) (l : JSStr) :
    (l.dropWhile p).length ≤ l.length := by
  induction l with
  | nil => simp
  | cons c cs ih =>
    rw [List.dropWhile_cons]
    split
    · exact Nat.le_succ_of_le ih
    · exact Nat.le_refl _

theorem dropWhile_dropWhile (p : Char → Bool) (l : JSStr) :
    (l.dropWhile p).dropWhile p = l.dropWhile p := by
  induction l with
  | nil => simp
  | cons c cs ih =>
    rw [List.dropWhile_cons]
    split
    · exact ih
    · rename_i h
      rw [List.dropWhile_cons, if_neg h]

theorem dropWhile_exists_eq (p : Char → Bool) (l : JSStr) :
    ∃ s, s ++ l.dropWhile p = l := by
  induction l with
  | nil => exact ⟨[], rfl⟩
  | cons c cs ih =>
    rw [List.dropWhile_cons]
    split
    · obtain ⟨s, hs⟩ := ih
      exact ⟨c :: s, by simp [hs]⟩
    · exact ⟨[], rfl⟩

theorem head_not_of_dropWhile_fix {p : Char → Bool} {c : Char} {cs : JSStr}
    (h : (c :: cs).dropWhile p = c :: cs) : p c = false := by
  by_contra hc
  rw [Bool.not_eq_false] at hc
  rw [List.dropWhile_cons, if_pos hc] at h
  have h1 := dropWhile_length_le p cs
  have h2 := congrArg List.length h
  simp at h2
  omega

theorem trimRightJS_length_le (l : JSStr) : (trimRightJS l).length ≤ l.length := by
  unfold trimRightJS
  rw [List.length_reverse]
  have h := dropWhile_length_le Char.isWhitespace l.reverse
  simpa using h

theorem trimRightJS_exists (l : JSStr) : ∃ t, trimRightJS l ++ t = l := by
  obtain ⟨s, hs⟩ := dropWhile_exists_eq Char.isWhitespace l.reverse
  refine ⟨s.reverse, ?_⟩
  have h := congrArg List.reverse hs
  simpa [List.reverse_append] using h

theorem trimLeftJS_trimRightJS {l : JSStr} (h : trimLeftJS l = l) :
    trimLeftJS (trimRightJS l) = trimRightJS l := by
  obtain ⟨t, ht⟩ := trimRightJS_exists l
  cases hr : trimRightJS l with
  | nil => rfl
  | cons c cs =>
    rw [hr] at ht
    have hl : l = c :: (cs ++ t) := by rw [← ht]; simp
    have hfix : trimLeftJS (c :: (cs ++ t)) = c :: (cs ++ t) := by rw [← hl]; exact h
    have hwc : Char.isWhitespace c = false := head_not_of_dropWhile_fix hfix
    show List.dropWhile Char.isWhitespace (c :: cs) = c :: cs
    rw [List.dropWhile_cons, if_neg (by simp [hwc])]

theorem trimRightJS_trimRightJS (l : JSStr) : trimRightJS (trimRightJS l) = trimRightJS l := by
  unfold trimRightJS
  rw [List.reverse_reverse, dropWhile_dropWhile]

theorem jsTrim_jsTrim (s : JSStr) : jsTrim (jsTrim s) = jsTrim s := by
  unfold jsTrim
  have h1 : trimLeftJS (trimLeftJS s) = trimLeftJS s := dropWhile_dropWhile _ _
  rw [trimLeftJS_trimRightJS h1, trimRightJS_trimRightJS]

theorem jsTrim_fix_head {c : Char} {cs : JSStr} (h : jsTrim (c :: cs) = c :: cs) :
    Char.isWhitespace c = false := by
  by_contra hc
  rw [Bool.not_eq_false] at hc
  have h1 : trimLeftJS (c :: cs) = List.dropWhile Char.isWhitespace cs := by
    unfold trimLeftJS
    rw [List.dropWhile_cons, if_pos hc]
  have hlen1 : (trimLeftJS (c :: cs)).length ≤ cs.length := by
    rw [h1]
    exact dropWhile_length_le _ _
  have hlen2 : (jsTrim (c :: cs)).length ≤ (trimLeftJS (c :: cs)).length :=
    trimRightJS_length_le _
  have h3 := congrArg List.length h
  simp at h3
  omega

theorem jsTrim_fix_trimLeftJS {b : JSStr} (h : jsTrim b = b) : trimLeftJS b = b := by
  have hlen2 : (jsTrim b).length ≤ (trimLeftJS b).length := trimRightJS_length_le _
  have hlen1 : (trimLeftJS b).length ≤ b.length := dropWhile_length_le _ _
  have heq : (jsTrim b).length = b.length := by rw [h]
  obtain ⟨s, hs⟩ := dropWhile_exists_eq Char.isWhitespace b
  have hsl : s.length + (trimLeftJS b).length = b.length := by
    have h4 := congrArg List.length hs
    simpa using h4
  have hs0 : s = [] := List.length_eq_zero.mp (by omega)
  rw [hs0, List.nil_append] at hs
  exact hs

theorem jsTrim_fix_revhead {b : JSStr} (h : jsTrim b = b) (hb : b ≠ []) :
    ∃ d ds, b.reverse = d :: ds ∧ Char.isWhitespace d = false := by
  cases hbr : b.reverse with
  | nil =>
    have h0 : b = [] := by simpa using congrArg List.reverse hbr
    exact absurd h0 hb
  | cons d ds =>
    refine ⟨d, ds, rfl, ?_⟩
    by_contra hd
    rw [Bool.not_eq_false] at hd
    have hL : trimLeftJS b = b := jsTrim_fix_trimLeftJS h
    have hR : trimRightJS b = b := by
      unfold jsTrim at h
      rw [hL] at h
      exact h
    unfold trimRightJS at hR
    rw [hbr, List.dropWhile_cons, if_pos hd] at hR
    have h5 := congrArg List.length hR
    have hle := dropWhile_length_le Char.isWhitespace ds
    simp at h5
    have hblen : b.length = ds.length + 1 := by
      have h6 := congrArg List.length hbr
      simpa using h6
    omega

theorem jsTrim_append_newline {a b : JSStr} (ha : jsTrim a = a) (hb : jsTrim b = b)
    (hna : a ≠ []) (hnb : b ≠ []) : jsTrim (a ++ '\n' :: b) = a ++ '\n' :: b := by
  obtain ⟨c, cs, rfl⟩ : ∃ c cs, a = c :: cs := by
    cases a with
    | nil => exact absurd rfl hna
    | cons c cs => exact ⟨c, cs, rfl⟩
  have hwc := jsTrim_fix_head ha
  obtain ⟨d, ds, hrev, hwd⟩ := jsTrim_fix_revhead hb hnb
  unfold jsTrim trimLeftJS trimRightJS
  rw [List.cons_append, List.dropWhile_cons, if_neg (by simp [hwc])]
  have hrv : (c :: (cs ++ '\n' :: b)).reverse = d :: (ds ++ '\n' :: (c :: cs).reverse) := by
    rw [show (c :: (cs ++ '\n' :: b)).reverse = b.reverse ++ '\n' :: (c :: cs).reverse by
      simp [List.reverse_cons, List.reverse_append, List.append_assoc]]
    rw [hrev, List.cons_append]
  rw [hrv, List.dropWhile_cons, if_neg (by simp [hwd])]
  have hback : (d :: (ds ++ '\n' :: (c :: cs).reverse)).reverse = c :: (cs ++ '\n' :: b) := by
    rw [← hrv, List.reverse_reverse]
  rw [hback]

theorem strStarts_append_false {a : Char} {s u : JSStr} (hs : s ≠ [])
    (h : strStarts [a] s = false) : strStarts [a] (s ++ u) = false := by
  cases s with
  | nil => exact absurd rfl hs
  | cons c cs =>
    simp [strStarts] at h ⊢
    exact h

theorem getGroup_addEntry_self (g : TagGroups) (k : JSStr) (e : TagEntry) :
    getGroup (addEntry g k e) k = getGroup g k ++ [e] := by
  induction g with
  | nil => simp [addEntry, getGroup]
  | cons p rest ih =>
    obtain ⟨k', es⟩ := p
    by_cases h : k' = k
    · subst h
      simp [addEntry, getGroup]
    · simp [addEntry, getGroup, h, ih]

theorem getGroup_addEntry_ne (g : TagGroups) (k k' : JSStr) (e : TagEntry) (h : k ≠ k') :
    getGroup (addEntry g k e) k' = getGroup g k' := by
  induction g with
  | nil => simp [addEntry, getGroup, h]
  | cons p rest ih =>
    obtain ⟨k'', es⟩ := p
    by_cases h2 : k'' = k
    · subst h2
      simp [addEntry, getGroup, h]
    · simp only [addEntry, if_neg h2]
      by_cases h3 : k'' = k'
      · simp [getGroup, h3]
      · simp [getGroup, h3, ih]

theorem parseStep_getGroup (st : ParsedJSDoc) (l : JSStr) (k : JSStr) :
    getGroup (parseStep st l).groups k = getGroup st.groups k ++ (entryFor k l).toList := by
  simp only [parseStep, entryFor]
  by_cases hA : strStarts atStr (jsTrim l) = true
  · rw [if_pos hA]
    dsimp only
    by_cases hk : lineKey (jsTrim l) = k
    · rw [if_pos ⟨hA, hk⟩, ← hk, getGroup_addEntry_self]
      rfl
    · rw [if_neg (by simp [hk]), getGroup_addEntry_ne _ _ _ _ hk]
      simp
  · rw [if_neg hA]
    by_cases hne : jsTrim l ≠ []
    · rw [if_pos hne]
      dsimp only
      rw [if_neg (by simp [hA])]
      simp
    · rw [if_neg hne]
      rw [if_neg (by simp [hA])]
      simp

theorem foldl_parseStep_getGroup (E : List JSStr) :
    ∀ (st : ParsedJSDoc) (k : JSStr),
      getGroup (List.foldl parseStep st E).groups k =
        getGroup st.groups k ++ E.filterMap (entryFor k) := by
  induction E with
  | nil =>
    intro st k
    simp
  | cons l E ih =>
    intro st k
    rw [List.foldl_cons, ih, parseStep_getGroup]
    cases h : entryFor k l <;> simp [h, List.filterMap_cons]

theorem getGroup_parseLines (E : List JSStr) (k : JSStr) :
    getGroup (parseLines E).groups k = E.filterMap (entryFor k) := by
  unfold parseLines
  rw [foldl_parseStep_getGroup]
  simp [getGroup]

theorem parseStep_md (st : ParsedJSDoc) (l : JSStr)
    (h1 : strStarts atStr st.mainDescription = false)
    (h2 : st.mainDescription = [] ∨
      (jsTrim st.mainDescription = st.mainDescription ∧ st.mainDescription ≠ [])) :
    strStarts atStr (parseStep st l).mainDescription = false ∧
      ((parseStep st l).mainDescription = [] ∨
        (jsTrim (parseStep st l).mainDescription = (parseStep st l).mainDescription ∧
          (parseStep st l).mainDescription ≠ [])) := by
  simp only [parseStep]
  by_cases hA : strStarts atStr (jsTrim l) = true
  · rw [if_pos hA]
    exact ⟨h1, h2⟩
  · rw [if_neg hA]
    rw [Bool.not_eq_true] at hA
    by_cases hne : jsTrim l ≠ []
    · rw [if_pos hne]
      rcases h2 with h2 | ⟨h2a, h2b⟩
      · simp only [h2, if_pos]
        exact ⟨hA, Or.inr ⟨jsTrim_jsTrim l, hne⟩⟩
      · simp only [if_neg h2b]
        refine ⟨strStarts_append_false h2b h1, Or.inr ⟨?_, by simp⟩⟩
        exact jsTrim_append_newline h2a (jsTrim_jsTrim l) h2b hne
    · rw [if_neg hne]
      exact ⟨h1, h2⟩

theorem foldl_parseStep_md (E : List JSStr) :
    ∀ st : ParsedJSDoc,
      strStarts atStr st.mainDescription = false →
      (st.mainDescription = [] ∨
        (jsTrim st.mainDescription = st.mainDescription ∧ st.mainDescription ≠ [])) →
      (strStarts atStr (List.foldl parseStep st E).mainDescription = false ∧
        ((List.foldl parseStep st E).mainDescription = [] ∨
          (jsTrim (List.foldl parseStep st E).mainDescription =
              (List.foldl parseStep st E).mainDescription ∧
            (List.foldl parseStep st E).mainDescription ≠ []))) := by
  induction E with
  | nil =>
    intro st ha hb
    exact ⟨ha, hb⟩
  | cons l E ih =>
    intro st ha hb
    rw [List.foldl_cons]
    obtain ⟨ha2, hb2⟩ := parseStep_md st l ha hb
    exact ih _ ha2 hb2

theorem parseLines_md (E : List JSStr) :
    strStarts atStr (parseLines E).mainDescription = false ∧
      ((parseLines E).mainDescription = [] ∨
        (jsTrim (parseLines E).mainDescription = (parseLines E).mainDescription ∧
          (parseLines E).mainDescription ≠ [])) :=
  foldl_parseStep_md E ⟨[], []⟩ (by decide) (Or.inl rfl)

theorem parseStep_groups_of_false {st : ParsedJSDoc} {l : JSStr}
    (h : strStarts atStr (jsTrim l) = false) : (parseStep st l).groups = st.groups := by
  unfold parseStep
  rw [if_neg (by simp [h])]
  by_cases hne : jsTrim l ≠ []
  · simp [hne]
  · simp [hne]

theorem parseLines_groups_nil_aux : ∀ (E : List JSStr) (st : ParsedJSDoc),
    (∀ l ∈ E, strStarts atStr (jsTrim l) = false) →
    (List.foldl parseStep st E).groups = st.groups := by
  intro E
  induction E with
  | nil =>
    intro st _
    rfl
  | cons l E ih =>
    intro st hE
    rw [List.foldl_cons]
    rw [ih _ (fun x hx => hE x (List.mem_cons_of_mem _ hx))]
    exact parseStep_groups_of_false (hE l (List.mem_cons_self _ _))

theorem parseLines_groups_nil {E : List JSStr}
    (hE : ∀ l ∈ E, strStarts atStr (jsTrim l) = false) :
    (parseLines E).groups = [] :=
  parseLines_groups_nil_aux E ⟨[], []⟩ hE

theorem parseLines_singleton_bare {x : JSStr} (hx : jsTrim x = x) (hne : x ≠ [])
    (hat2 : strStarts atStr x = false) : parseLines [x] = ⟨[], x⟩ := by
  show parseStep ⟨[], []⟩ x = ⟨[], x⟩
  simp only [parseStep]
  rw [hx, if_neg (by simp [hat2]), if_pos hne]
  simp

theorem update_desc_only {E : List JSStr} {m : InferredJSDoc}
    (hg : (parseLines E).groups = [])
    (hp : m.params = []) (hn : m.name = []) (hc : m.constructorDescription = [])
    (hr : m.returnsType = []) (ht : m.throws = []) (hx : m.examples = []) :
    updateJSDocBlock E m = descriptionSection (parseLines E) m := by
  have hb : blankSection (parseLines E) m = [] := by
    unfold blankSection
    rw [if_neg (by simp [hp, hr, ht, hx, hg])]
  have hcl : classSection (parseLines E) m = [] := by
    unfold classSection
    rw [if_neg (by simp [hn])]
  have hct : ctorSection (parseLines E) m = [] := by
    unfold ctorSection
    rw [if_neg (by simp [hc])]
  have hpa : paramsSection (parseLines E) m = [] := by
    unfold paramsSection
    rw [hp]
    rfl
  have hre : returnsSection (parseLines E) m = [] := by
    unfold returnsSection
    rw [if_neg (by simp [hr])]
  have hth : throwsSection (parseLines E) m = [] := by
    unfold throwsSection
    rw [ht]
    rfl
  have hex : examplesSection (parseLines E) m = [] := by
    unfold examplesSection
    rw [hx]
    rfl
  have hot : otherSection (parseLines E) = [] := by
    unfold otherSection
    rw [hg]
    simp [getGroup]
  simp only [updateJSDocBlock]
  rw [hb, hcl, hct, hpa, hre, hth, hex, hot]
  simp

/-- C9: for the class metadata with name User, description, constructor
description and one string constructor parameter id, buildJSDocLines returns
exactly the four expected lines in order. -/
theorem C9_fresh_builder_class_scenario :
    buildJSDocLines
      { name := ("User").data, description := ("Represents a user.").data,
        constructorDescription := ("Creates a user.").data,
        constructorParams := [⟨("id").data, ("string").data, ("The user ID.").data⟩] } =
    [("Represents a user.").data, atClassLine, ("@constructor Creates a user.").data,
     ("@param \x7bstring\x7d id - The user ID.").data] := by decide

/-- C4: contrary to the claim, a bare non-blank line occurring after a tag line
still contributes to the emitted main description, because the source's
foundMainDescription flag is declared but never set; at the failing input the
later bare line becomes the whole emitted description. -/
theorem C4_bare_line_after_tag_contributes :
    (parseLines [("@see x").data, ("Later text.").data]).mainDescription =
      ("Later text.").data ∧
    updateJSDocBlock [("@see x").data, ("Later text.").data] {} =
      [("Later text.").data, [], ("@see x").data] := by decide

/-- C6 counterexample: a block comment whose text is exactly the doc marker
normalizes to no lines, yet getJSDocBlocks returns the non-absent empty list
rather than null. -/
theorem C6_empty_normalization_cex :
    getJSDocBlocks [⟨commentBlockTy, starStr⟩] = some [] ∧
    getJSDocBlocks [⟨commentBlockTy, starStr⟩] ≠ none := by decide

/-- C6 amended: getJSDocBlocks is absent exactly when no candidate comment is a
block comment starting with the doc marker; a selected comment that normalizes
to no lines yields the non-absent empty list instead of null. -/
theorem C6_absent_iff_no_candidate (comments : List BabelComment) :
    getJSDocBlocks comments = none ↔ comments.find? isDocBlockComment = none := by
  unfold getJSDocBlocks
  by_cases h : comments = []
  · subst h
    rw [if_pos rfl]
    simp [List.find?]
  · rw [if_neg h]
    cases hf : comments.find? isDocBlockComment with
    | none => simp
    | some c => simp

/-- C6 witness: a single line comment is no candidate, so the result is absent. -/
theorem C6_absent_iff_no_candidate_witness :
    getJSDocBlocks [⟨("CommentLine").data, ("x").data⟩] = none :=
  (C6_absent_iff_no_candidate _).mpr (by decide)

/-- C8 counterexample: with an existing managed example tag that metadata drops,
the blank separator is emitted with nothing after it (a trailing blank after the
description), and with class metadata the class marker follows the description
with no separator; both directions of the claimed equivalence fail. -/
theorem C8_blank_separator_cex :
    updateJSDocBlock [("Hi").data, ("@example foo").data] {} = [("Hi").data, []] ∧
    updateJSDocBlock [("Hi").data] { name := ("A").data } =
      [("Hi").data, atClassLine] := by decide

/-- C8 amended: the blank separator follows the description exactly when a
description was emitted and the source's condition holds - metadata has params,
a returns type, throws or examples, or the existing lines parsed to at least one
tag entry - regardless of whether any subsequent section actually emits output. -/
theorem C8_blank_separator_condition (E : List JSStr) (m : InferredJSDoc) :
    updateJSDocBlock E m =
      descriptionSection (parseLines E) m ++ blankSection (parseLines E) m ++
        tailSections E m ∧
    (blankSection (parseLines E) m = [[]] ↔
      (descriptionSection (parseLines E) m ≠ [] ∧
        (m.params ≠ [] ∨ m.returnsType ≠ [] ∨ m.throws ≠ [] ∨ m.examples ≠ [] ∨
          (parseLines E).groups ≠ []))) := by
  constructor
  · simp [updateJSDocBlock, tailSections, List.append_assoc]
  · unfold blankSection
    split
    · rename_i hcond
      exact iff_of_true rfl hcond
    · rename_i hcond
      exact iff_of_false (by simp) hcond

/-- C8 witness: at the counterexample input the separator is emitted because an
existing tag entry was parsed, although no later section emits anything. -/
theorem C8_blank_separator_condition_witness :
    blankSection (parseLines [("Hi").data, ("@example foo").data]) {} = [[]] :=
  (C8_blank_separator_condition [("Hi").data, ("@example foo").data] {}).2.mpr (by decide)

/-- C3: when the parsed existing main description is nonempty and does not
contain the description placeholder, the description step emits exactly that
existing description and it is the first line of updateJSDocBlock's output,
whatever the metadata description is. -/
theorem C3_human_description_preserved (E : List JSStr) (m : InferredJSDoc)
    (h1 : (parseLines E).mainDescription ≠ [])
    (h2 : jsIncl descPlaceholder (parseLines E).mainDescription = false) :
    descriptionSection (parseLines E) m = [(parseLines E).mainDescription] ∧
    (updateJSDocBlock E m).head? = some (parseLines E).mainDescription := by
  have hph : (decide ((parseLines E).mainDescription = []) ||
      jsIncl descPlaceholder (parseLines E).mainDescription) = false := by
    simp [h1, h2]
  have hdesc : descriptionSection (parseLines E) m = [(parseLines E).mainDescription] := by
    simp only [descriptionSection]
    rw [hph]
    split
    · rw [if_neg (by simp)]
    · simp [h1]
  refine ⟨hdesc, ?_⟩
  simp only [updateJSDocBlock]
  rw [hdesc]
  simp

/-- C3 witness at a concrete human-written description. -/
theorem C3_human_description_preserved_witness :
    descriptionSection
        (parseLines [("My function.").data, ("@param \x7bnumber\x7d a - The a.").data])
        { description := ("AI text.").data } =
      [("My function.").data] ∧
    (updateJSDocBlock [("My function.").data, ("@param \x7bnumber\x7d a - The a.").data]
        { description := ("AI text.").data }).head? = some (("My function.").data) := by
  obtain ⟨ha, hb⟩ := C3_human_description_preserved
    [("My function.").data, ("@param \x7bnumber\x7d a - The a.").data]
    { description := ("AI text.").data } (by decide) (by decide)
  constructor
  · rw [ha]
    decide
  · rw [hb]
    decide

/-- C1 counterexample: reconciliation is not idempotent; a managed returns tag
in the existing lines triggers the blank separator on the first pass, and the
second pass, seeing no tags, drops it. -/
theorem C1_reconcile_not_idempotent_cex :
    updateJSDocBlock
        (updateJSDocBlock [("@returns \x7bx\x7d y").data] { description := ("D").data })
        { description := ("D").data } ≠
      updateJSDocBlock [("@returns \x7bx\x7d y").data] { description := ("D").data } := by
  decide

/-- C1 amended: idempotence does hold in the tag-free regime - when no existing
line is a tag line after trimming and the metadata carries only a description
that is trim-fixed and does not start with the at sign, a second application of
updateJSDocBlock on its own output is the identity. -/
theorem C1_reconcile_idempotent_restricted (E : List JSStr) (d : JSStr)
    (hE : ∀ l ∈ E, strStarts atStr (jsTrim l) = false)
    (hd : jsTrim d = d) (hat : strStarts atStr d = false) :
    updateJSDocBlock (updateJSDocBlock E { description := d }) { description := d } =
      updateJSDocBlock E { description := d } := by
  have hg : (parseLines E).groups = [] := parseLines_groups_nil hE
  obtain ⟨hmdAt, hmdTrim⟩ := parseLines_md E
  rw [update_desc_only hg rfl rfl rfl rfl rfl rfl]
  by_cases hd1 : d ≠ [] ∧ d ≠ descPlaceholder
  · by_cases hph : (decide ((parseLines E).mainDescription = []) ||
        jsIncl descPlaceholder (parseLines E).mainDescription) = true
    · have hdesc : descriptionSection (parseLines E) { description := d } = [d] := by
        simp only [descriptionSection]
        rw [if_pos hd1, hph, if_pos rfl]
      have hd0 : d ≠ [] := hd1.1
      have hps : parseLines [d] = ⟨[], d⟩ := parseLines_singleton_bare hd hd0 hat
      rw [hdesc, update_desc_only (by rw [hps]) rfl rfl rfl rfl rfl rfl, hps]
      simp only [descriptionSection]
      rw [if_pos hd1]
      dsimp only
      split <;> rfl
    · have hphF : (decide ((parseLines E).mainDescription = []) ||
          jsIncl descPlaceholder (parseLines E).mainDescription) = false := by
        rwa [Bool.not_eq_true] at hph
      have hdesc : descriptionSection (parseLines E) { description := d } =
          [(parseLines E).mainDescription] := by
        simp only [descriptionSection]
        rw [if_pos hd1, hphF, if_neg (by simp)]
      have hmdne : (parseLines E).mainDescription ≠ [] := by
        intro h0
        rw [h0] at hphF
        simp at hphF
      have hmdT : jsTrim (parseLines E).mainDescription = (parseLines E).mainDescription := by
        rcases hmdTrim with h0 | ⟨h0, _⟩
        · exact absurd h0 hmdne
        · exact h0
      have hps : parseLines [(parseLines E).mainDescription] =
          ⟨[], (parseLines E).mainDescription⟩ := parseLines_singleton_bare hmdT hmdne hmdAt
      rw [hdesc, update_desc_only (by rw [hps]) rfl rfl rfl rfl rfl rfl, hps]
      simp only [descriptionSection]
      dsimp only
      rw [if_pos hd1, hphF, if_neg (by simp)]
  · by_cases hmdne : (parseLines E).mainDescription ≠ []
    · have hdesc : descriptionSection (parseLines E) { description := d } =
          [(parseLines E).mainDescription] := by
        simp only [descriptionSection]
        rw [if_neg hd1, if_pos hmdne]
      have hmdT : jsTrim (parseLines E).mainDescription = (parseLines E).mainDescription := by
        rcases hmdTrim with h0 | ⟨h0, _⟩
        · exact absurd h0 hmdne
        · exact h0
      have hps : parseLines [(parseLines E).mainDescription] =
          ⟨[], (parseLines E).mainDescription⟩ := parseLines_singleton_bare hmdT hmdne hmdAt
      rw [hdesc, update_desc_only (by rw [hps]) rfl rfl rfl rfl rfl rfl, hps]
      simp only [descriptionSection]
      dsimp only
      rw [if_neg hd1, if_pos hmdne]
    · have hdesc : descriptionSection (parseLines E) { description := d } = [] := by
        simp only [descriptionSection]
        rw [if_neg hd1, if_neg hmdne]
      rw [hdesc]
      have hps0 : parseLines ([] : List JSStr) = ⟨[], []⟩ := rfl
      rw [update_desc_only (by rw [hps0]) rfl rfl rfl rfl rfl rfl, hps0]
      simp only [descriptionSection]
      rw [if_neg hd1, if_neg (by simp)]

/-- C1 witness: a two-line tag-free comment with a fresh description reaches a
fixed point after one application. -/
theorem C1_reconcile_idempotent_restricted_witness :
    updateJSDocBlock
        (updateJSDocBlock [("Hello.").data, ("World.").data]
          { description := ("New desc.").data })
        { description := ("New desc.").data } =
      updateJSDocBlock [("Hello.").data, ("World.").data]
        { description := ("New desc.").data } :=
  C1_reconcile_idempotent_restricted [("Hello.").data, ("World.").data]
    (("New desc.").data) (by decide) (by decide) (by decide)

/-- C5: the returns step emits a line only when the metadata returns type is
present and not void; with a single existing returns entry, the emitted line
pairs the metadata type with the entry's content when that content is nonempty
and not the generic returns placeholder, and with the metadata description
otherwise; the kept-content line occurs in updateJSDocBlock's output. -/
theorem C5_returns_reconciliation (E : List JSStr) (m : InferredJSDoc) :
    ((m.returnsType = [] ∨ m.returnsType = voidStr) → returnsSection (parseLines E) m = []) ∧
    (∀ e : TagEntry, m.returnsType ≠ [] → m.returnsType ≠ voidStr →
      getGroup (parseLines E).groups returnsTag = [e] →
      ((e.content ≠ [] ∧ e.content ≠ returnsPlaceholder →
        returnsSection (parseLines E) m = [returnsTagLine m.returnsType e.content] ∧
        returnsTagLine m.returnsType e.content ∈ updateJSDocBlock E m) ∧
      ((e.content = [] ∨ e.content = returnsPlaceholder) →
        returnsSection (parseLines E) m =
          [returnsTagLine m.returnsType m.returnsDescription]))) := by
  constructor
  · intro h
    unfold returnsSection
    rcases h with h | h
    · rw [if_neg (by simp [h])]
    · rw [if_neg (by simp [h])]
  · intro e h1 h2 hg
    constructor
    · rintro ⟨hc1, hc2⟩
      have hfind : (getGroup (parseLines E).groups returnsTag).find?
          (fun e2 => decide (e2.content ≠ returnsPlaceholder)) = some e := by
        rw [hg]
        simp [List.find?, hc2]
      have hsec : returnsSection (parseLines E) m =
          [returnsTagLine m.returnsType e.content] := by
        unfold returnsSection
        rw [if_pos ⟨h1, h2⟩, hfind]
        dsimp only
        rw [if_pos ⟨hc1, hc2⟩]
      refine ⟨hsec, ?_⟩
      simp only [updateJSDocBlock]
      rw [hsec]
      simp
    · intro hc
      unfold returnsSection
      rw [if_pos ⟨h1, h2⟩]
      rcases hc with hc | hc
      · have hfind : (getGroup (parseLines E).groups returnsTag).find?
            (fun e2 => decide (e2.content ≠ returnsPlaceholder)) = some e := by
          rw [hg]
          have hdec : decide (e.content ≠ returnsPlaceholder) = true := by
            rw [hc]
            decide
          simp [List.find?, hdec]
        rw [hfind]
        dsimp only
        rw [if_neg (by simp [hc])]
      · have hfind : (getGroup (parseLines E).groups returnsTag).find?
            (fun e2 => decide (e2.content ≠ returnsPlaceholder)) = none := by
          rw [hg]
          have hdec : decide (e.content ≠ returnsPlaceholder) = false := by
            rw [hc]
            decide
          simp [List.find?, hdec]
        rw [hfind]

/-- C5 witness: a concrete existing returns entry with human content is paired
with the metadata type. -/
theorem C5_returns_reconciliation_witness :
    returnsSection (parseLines [("@returns The old.").data])
        { returnsType := ("number").data, returnsDescription := ("New.").data } =
      [returnsTagLine (("number").data) (("The old.").data)] ∧
    returnsTagLine (("number").data) (("The old.").data) ∈
      updateJSDocBlock [("@returns The old.").data]
        { returnsType := ("number").data, returnsDescription := ("New.").data } :=
  ((C5_returns_reconciliation [("@returns The old.").data]
      { returnsType := ("number").data, returnsDescription := ("New.").data }).2
    ⟨("@returns The old.").data, ("The old.").data⟩
    (by decide) (by decide) (by decide)).1 (by decide)

/-- C7: every existing tag entry whose aliased name is outside the managed set
is routed to the other bucket in encounter order, and updateJSDocBlock's output
is exactly the managed sections followed by those entries' original lines, so
each unmanaged entry appears unmodified after every managed line. -/
theorem C7_unmanaged_round_trip (E : List JSStr) (m : InferredJSDoc) :
    updateJSDocBlock E m =
      managedSections E m ++ (E.filterMap (entryFor otherTag)).map TagEntry.originalLine ∧
    ∀ e ∈ E.filterMap (entryFor otherTag), e.originalLine ∈ updateJSDocBlock E m := by
  have h1 : updateJSDocBlock E m =
      managedSections E m ++ (E.filterMap (entryFor otherTag)).map TagEntry.originalLine := by
    simp only [updateJSDocBlock, managedSections, otherSection]
    rw [getGroup_parseLines]
  refine ⟨h1, ?_⟩
  intro e he
  rw [h1]
  exact List.mem_append_right _ (List.mem_map_of_mem _ he)

/-- C7 witness: a concrete see tag is preserved verbatim in the output. -/
theorem C7_unmanaged_round_trip_witness :
    (⟨("@see x").data, ("x").data⟩ : TagEntry).originalLine ∈
      updateJSDocBlock [("@see x").data] {} :=
  (C7_unmanaged_round_trip [("@see x").data] {}).2 ⟨("@see x").data, ("x").data⟩ (by decide)

theorem cons2_ne {c a b : Char} {r s : JSStr} (hab : a ≠ b) :
    (c :: a :: r : JSStr) ≠ c :: b :: s := by
  intro h
  injection h with h1 h2
  injection h2 with h3 h4
  exact hab h3

/-- C10: the class form is dispatched purely on the name field: the class step
of updateJSDocBlock is nonempty exactly when the name is truthy; with a truthy
name buildJSDocLines puts the class marker at index one and ignores the
function fields (functionName, params, returns, throws) entirely; without a
name no class marker appears at that position. -/
theorem C10_variant_dispatch_by_name (E : List JSStr) (m : InferredJSDoc) :
    (classSection (parseLines E) m = [] ↔ m.name = []) ∧
    (m.name ≠ [] →
      (buildJSDocLines m)[1]? = some atClassLine ∧
      buildJSDocLines m =
        buildJSDocLines
          { m with
            functionName := [], params := [], returnsType := [],
            returnsDescription := [], throws := [] }) ∧
    (m.name = [] → (buildJSDocLines m)[1]? ≠ some atClassLine) := by
  refine ⟨⟨?_, ?_⟩, ?_, ?_⟩
  · intro h
    by_contra hn
    unfold classSection at h
    rw [if_pos hn] at h
    rcases List.append_eq_nil.mp h with ⟨h4, _⟩
    cases hgc : getGroup (parseLines E).groups classTag with
    | nil =>
      rw [hgc] at h4
      simp at h4
    | cons e rest =>
      rw [hgc] at h4
      simp at h4
  · intro h
    unfold classSection
    rw [if_neg (by simp [h])]
  · intro hn
    constructor
    · unfold buildJSDocLines
      rw [if_pos hn]
      simp
    · unfold buildJSDocLines
      rw [if_pos hn, if_pos (show
        ({ m with
           functionName := [], params := [], returnsType := [],
           returnsDescription := [], throws := [] } : InferredJSDoc).name ≠ [] from hn)]
  · intro h
    unfold buildJSDocLines
    rw [if_neg (by simp [h])]
    by_cases hp : m.params ≠ []
    · rw [if_pos hp]
      simp
      decide
    · rw [if_neg hp]
      by_cases hr : m.returnsType ≠ [] ∧ m.returnsType ≠ voidStr
      · rw [if_pos hr]
        simp
        exact fun hEq => cons2_ne (by decide) hEq.symm
      · rw [if_neg hr]
        by_cases ht : m.throws ≠ []
        · rw [if_pos ht]
          obtain ⟨d0, ds, hds⟩ := List.exists_cons_of_ne_nil ht
          rw [hds]
          simp
          exact fun hEq => cons2_ne (by decide) hEq.symm
        · rw [if_neg ht]
          by_cases hx : m.examples ≠ []
          · rw [if_pos hx]
            obtain ⟨x0, xs, hxs⟩ := List.exists_cons_of_ne_nil hx
            rw [hxs]
            simp
            exact fun hEq => cons2_ne (by decide) hEq.symm
          · rw [if_neg hx]
            simp

/-- C10 witness: concrete class metadata places the marker at index one. -/
theorem C10_variant_dispatch_by_name_witness :
    (buildJSDocLines { name := ("A").data, description := ("D").data })[1]? =
      some atClassLine :=
  ((C10_variant_dispatch_by_name []
    { name := ("A").data, description := ("D").data }).2.1 (by decide)).1

theorem splitCh_ne_nil (sep : Char) (l : JSStr) : splitCh sep l ≠ [] := by
  cases l with
  | nil => simp [splitCh]
  | cons c cs =>
    by_cases h : c = sep
    · simp [splitCh, h]
    · simp only [splitCh, if_neg h]
      cases splitCh sep cs <;> simp

theorem splitCh_headD_cons_ne {c : Char} (cs : JSStr) (h : ¬ c = ' ') :
    (splitCh ' ' (c :: cs)).headD [] = c :: (splitCh ' ' cs).headD [] := by
  simp only [splitCh, if_neg h]
  cases hs : splitCh ' ' cs with
  | nil => exact absurd hs (splitCh_ne_nil _ _)
  | cons r rs => simp

theorem splitCh_headD_cons_eq (cs : JSStr) :
    (splitCh ' ' (' ' :: cs)).headD [] = [] := by
  simp [splitCh]

theorem atExampleSp_append_headD (ex : JSStr) :
    (splitCh ' ' (atExampleSp ++ ex)).headD [] = ("@example").data := by
  show (splitCh ' ' ('@' :: 'e' :: 'x' :: 'a' :: 'm' :: 'p' :: 'l' :: 'e' :: ' ' :: ex)).headD
    [] = ("@example").data
  rw [splitCh_headD_cons_ne _ (by decide), splitCh_headD_cons_ne _ (by decide),
    splitCh_headD_cons_ne _ (by decide), splitCh_headD_cons_ne _ (by decide),
    splitCh_headD_cons_ne _ (by decide), splitCh_headD_cons_ne _ (by decide),
    splitCh_headD_cons_ne _ (by decide), splitCh_headD_cons_ne _ (by decide),
    splitCh_headD_cons_eq]

theorem lineKey_atExample (ex : JSStr) : lineKey (atExampleSp ++ ex) = exampleTag := by
  unfold lineKey tagNameOf
  rw [atExampleSp_append_headD]
  decide

theorem strStarts_at_atExample (ex : JSStr) : strStarts atStr (atExampleSp ++ ex) = true := rfl

theorem atExampleSp_append_ne_nil (ex : JSStr) : atExampleSp ++ ex ≠ [] := by
  intro h
  have h2 := congrArg List.length h
  rw [List.length_append, List.length_nil] at h2
  have h3 : atExampleSp.length = 9 := by decide
  rw [h3] at h2
  omega

theorem mem_group_originalLine {E : List JSStr} {k : JSStr} {e : TagEntry}
    (he : e ∈ getGroup (parseLines E).groups k) :
    strStarts atStr e.originalLine = true ∧ lineKey e.originalLine = k := by
  rw [getGroup_parseLines] at he
  obtain ⟨l, _, hl⟩ := List.mem_filterMap.mp he
  unfold entryFor at hl
  by_cases hc : strStarts atStr (jsTrim l) = true ∧ lineKey (jsTrim l) = k
  · rw [if_pos hc] at hl
    have he2 := Option.some.inj hl
    rw [← he2]
    exact hc
  · rw [if_neg hc] at hl
    exact absurd hl (by simp)

theorem lineKey_mem (t : JSStr) : lineKey t ∈ MANAGED_JSDOC_TAGS ∨ lineKey t = otherTag := by
  unfold lineKey
  split
  · rename_i h
    exact Or.inl h
  · exact Or.inr rfl

theorem getGroup_parseLines_nil_of (E : List JSStr) (k : JSStr)
    (hk1 : k ∉ MANAGED_JSDOC_TAGS) (hk2 : k ≠ otherTag) :
    getGroup (parseLines E).groups k = [] := by
  rw [getGroup_parseLines]
  rw [List.filterMap_eq_nil_iff]
  intro l _
  unfold entryFor
  rw [if_neg]
  rintro ⟨h1, h2⟩
  rcases lineKey_mem (jsTrim l) with h3 | h3
  · rw [h2] at h3
    exact hk1 h3
  · rw [h2] at h3
    exact hk2 h3

theorem ctorParamLine_ne_atExample (st : ParsedJSDoc) (p : JSParam) (ex : JSStr) :
    ctorParamLine st p ≠ atExampleSp ++ ex := by
  unfold ctorParamLine
  split
  · split
    · exact cons2_ne (by decide)
    · exact cons2_ne (by decide)
  · exact cons2_ne (by decide)

theorem paramLine_ne_atExample (st : ParsedJSDoc) (p : JSParam) (ex : JSStr) :
    paramLine st p ≠ atExampleSp ++ ex := by
  unfold paramLine
  split
  · split
    · exact cons2_ne (by decide)
    · exact cons2_ne (by decide)
  · exact cons2_ne (by decide)

theorem returnsTagLine_ne_atExample (t d ex : JSStr) :
    returnsTagLine t d ≠ atExampleSp ++ ex :=
  cons2_ne (by decide)

theorem target_not_mem_descriptionSection (E : List JSStr) (m : InferredJSDoc) (ex : JSStr)
    (hdesc : m.description ≠ atExampleSp ++ ex) :
    (atExampleSp ++ ex) ∉ descriptionSection (parseLines E) m := by
  have hmdAt := (parseLines_md E).1
  have hd3 : descriptionSection (parseLines E) m = [m.description] ∨
      descriptionSection (parseLines E) m = [(parseLines E).mainDescription] ∨
      descriptionSection (parseLines E) m = [] := by
    simp only [descriptionSection]
    split
    · split
      · exact Or.inl rfl
      · exact Or.inr (Or.inl rfl)
    · split
      · exact Or.inr (Or.inl rfl)
      · exact Or.inr (Or.inr rfl)
  intro h
  rcases hd3 with h3 | h3 | h3 <;> rw [h3] at h
  · rw [List.mem_singleton] at h
    exact hdesc h.symm
  · rw [List.mem_singleton] at h
    rw [← h, strStarts_at_atExample] at hmdAt
    simp at hmdAt
  · simp at h

theorem target_not_mem_blankSection (E : List JSStr) (m : InferredJSDoc) (ex : JSStr) :
    (atExampleSp ++ ex) ∉ blankSection (parseLines E) m := by
  unfold blankSection
  split
  · intro h
    rw [List.mem_singleton] at h
    exact atExampleSp_append_ne_nil ex h
  · simp

theorem target_not_mem_classSection (E : List JSStr) (m : InferredJSDoc) (ex : JSStr) :
    (atExampleSp ++ ex) ∉ classSection (parseLines E) m := by
  have hA : getGroup (parseLines E).groups augmentsTag = [] :=
    getGroup_parseLines_nil_of E augmentsTag (by decide) (by decide)
  have hX : getGroup (parseLines E).groups extendsTag = [] :=
    getGroup_parseLines_nil_of E extendsTag (by decide) (by decide)
  unfold classSection
  split
  · intro h
    rw [List.mem_append] at h
    rcases h with h | h
    · cases hgc : getGroup (parseLines E).groups classTag with
      | nil =>
        rw [hgc] at h
        have h2 : (atExampleSp ++ ex) ∈ [atClassLine] := h
        rw [List.mem_singleton] at h2
        exact cons2_ne (by decide) h2
      | cons e rest =>
        rw [hgc] at h
        have h2 : (atExampleSp ++ ex) ∈ [e.originalLine] := h
        rw [List.mem_singleton] at h2
        have hk := (mem_group_originalLine (k := classTag)
          (by rw [hgc]; exact List.mem_cons_self _ _)).2
        rw [← h2, lineKey_atExample] at hk
        exact absurd hk (by decide)
    · revert h
      split
      · rw [hA, hX]
        simp only [ne_eq, not_true_eq_false, if_false]
        intro h
        simp at h
        exact cons2_ne (by decide) h
      · simp
  · simp

theorem target_not_mem_ctorSection (E : List JSStr) (m : InferredJSDoc) (ex : JSStr) :
    (atExampleSp ++ ex) ∉ ctorSection (parseLines E) m := by
  have hC : getGroup (parseLines E).groups constructorTag = [] :=
    getGroup_parseLines_nil_of E constructorTag (by decide) (by decide)
  unfold ctorSection
  rw [hC]
  split
  · intro h
    rw [List.mem_append] at h
    rcases h with h | h
    · have h2 : (atExampleSp ++ ex) ∈
          (if m.constructorDescription ≠ ctorPlaceholder then
            [atConstructorSp ++ m.constructorDescription] else []) := h
      by_cases hph : m.constructorDescription ≠ ctorPlaceholder
      · rw [if_pos hph, List.mem_singleton] at h2
        exact cons2_ne (by decide) h2
      · rw [if_neg hph] at h2
        simp at h2
    · rw [List.mem_map] at h
      obtain ⟨p, _, hp⟩ := h
      exact ctorParamLine_ne_atExample _ p ex hp
  · simp

theorem target_not_mem_paramsSection (E : List JSStr) (m : InferredJSDoc) (ex : JSStr) :
    (atExampleSp ++ ex) ∉ paramsSection (parseLines E) m := by
  unfold paramsSection
  intro h
  rw [List.mem_map] at h
  obtain ⟨p, _, hp⟩ := h
  exact paramLine_ne_atExample _ p ex hp

theorem target_not_mem_returnsSection (E : List JSStr) (m : InferredJSDoc) (ex : JSStr) :
    (atExampleSp ++ ex) ∉ returnsSection (parseLines E) m := by
  unfold returnsSection
  split
  · split
    · split
      · intro h
        rw [List.mem_singleton] at h
        exact returnsTagLine_ne_atExample _ _ ex h.symm
      · intro h
        rw [List.mem_singleton] at h
        exact returnsTagLine_ne_atExample _ _ ex h.symm
    · intro h
      rw [List.mem_singleton] at h
      exact returnsTagLine_ne_atExample _ _ ex h.symm
  · simp

theorem target_not_mem_throwsSection (E : List JSStr) (m : InferredJSDoc) (ex : JSStr) :
    (atExampleSp ++ ex) ∉ throwsSection (parseLines E) m := by
  unfold throwsSection
  intro h
  rw [List.mem_map] at h
  obtain ⟨d, _, hd⟩ := h
  revert hd
  split
  · rename_i e heq
    intro hd
    have he := List.mem_of_find?_eq_some heq
    have hk := (mem_group_originalLine he).2
    rw [hd, lineKey_atExample] at hk
    exact absurd hk (by decide)
  · intro hd
    exact cons2_ne (by decide) hd

theorem target_not_mem_examplesSection (E : List JSStr) (m : InferredJSDoc) (ex : JSStr)
    (hmatch : ((getGroup (parseLines E).groups exampleTag).any
      fun e => cleanedExample e.content == cleanedExample ex) = true) :
    (atExampleSp ++ ex) ∉ examplesSection (parseLines E) m := by
  unfold examplesSection
  intro h
  rw [List.mem_filterMap] at h
  obtain ⟨ex2, _, hex2⟩ := h
  revert hex2
  dsimp only
  split
  · rename_i hcond
    intro hex2
    have heq := Option.some.inj hex2
    have hxx : ex2 = ex := List.append_cancel_left heq
    rw [hxx] at hcond
    rw [hcond.1] at hmatch
    simp at hmatch
  · intro hex2
    simp at hex2

theorem target_not_mem_otherSection (E : List JSStr) (ex : JSStr) :
    (atExampleSp ++ ex) ∉ otherSection (parseLines E) := by
  unfold otherSection
  intro h
  rw [List.mem_map] at h
  obtain ⟨e, he, hoe⟩ := h
  have hk := (mem_group_originalLine he).2
  rw [hoe, lineKey_atExample] at hk
  exact absurd hk (by decide)

/-- C2 counterexample: an example whose fence-stripped content matches an
existing example entry and also occurs in the metadata examples appears zero
times in the output, not exactly once - the metadata copy is skipped by the
dedup check and the existing entry is never re-emitted, so the output here is
empty. -/
theorem C2_example_dedup_cex :
    ((getGroup (parseLines [("@example x```").data]).groups exampleTag).any
      fun e => cleanedExample e.content == cleanedExample (("x```").data)) = true ∧
    (("x```").data) ∈ ({ examples := [("x```").data] } : InferredJSDoc).examples ∧
    updateJSDocBlock [("@example x```").data] { examples := [("x```").data] } = [] := by
  decide

/-- C2 amended: an example present both as an existing example entry (by
fence-stripped content) and in the metadata examples is never emitted at all:
provided the metadata description is not literally that example line, the line
built from it is absent from updateJSDocBlock's whole output, so it appears
zero times rather than exactly once. -/
theorem C2_example_both_present_never_emitted (E : List JSStr) (m : InferredJSDoc)
    (ex : JSStr) (hmem : ex ∈ m.examples)
    (hmatch : ((getGroup (parseLines E).groups exampleTag).any
      fun e => cleanedExample e.content == cleanedExample ex) = true)
    (hdesc : m.description ≠ atExampleSp ++ ex) :
    (atExampleSp ++ ex) ∉ updateJSDocBlock E m := by
  intro h
  have h0 : (atExampleSp ++ ex) ∈
      descriptionSection (parseLines E) m ++ blankSection (parseLines E) m ++
        classSection (parseLines E) m ++ ctorSection (parseLines E) m ++
        paramsSection (parseLines E) m ++ returnsSection (parseLines E) m ++
        throwsSection (parseLines E) m ++ examplesSection (parseLines E) m ++
        otherSection (parseLines E) := h
  simp only [List.append_assoc] at h0
  rcases List.mem_append.mp h0 with h1 | h0
  · exact target_not_mem_descriptionSection E m ex hdesc h1
  rcases List.mem_append.mp h0 with h1 | h0
  · exact target_not_mem_blankSection E m ex h1
  rcases List.mem_append.mp h0 with h1 | h0
  · exact target_not_mem_classSection E m ex h1
  rcases List.mem_append.mp h0 with h1 | h0
  · exact target_not_mem_ctorSection E m ex h1
  rcases List.mem_append.mp h0 with h1 | h0
  · exact target_not_mem_paramsSection E m ex h1
  rcases List.mem_append.mp h0 with h1 | h0
  · exact target_not_mem_returnsSection E m ex h1
  rcases List.mem_append.mp h0 with h1 | h0
  · exact target_not_mem_throwsSection E m ex h1
  rcases List.mem_append.mp h0 with h1 | h0
  · exact target_not_mem_examplesSection E m ex hmatch h1
  exact target_not_mem_otherSection E ex h0

/-- C2 witness: the concrete duplicated example from the counterexample input
is absent from the output even when other content is present. -/
theorem C2_example_both_present_never_emitted_witness :
    (atExampleSp ++ ("x```").data) ∉
      updateJSDocBlock [("@example x```").data, ("@see keep").data]
        { description := ("D.").data, examples := [("x```").data] } :=
  C2_example_both_present_never_emitted
    [("@example x```").data, ("@see keep").data]
    { description := ("D.").data, examples := [("x```").data] }
    (("x```").data) (by decide) (by decide) (by decide)
